import Mathlib

/-!
# Verification of the cache-aside read path (`backend/cache.py`)

Shallow embedding of the cache module of the content-management backend:

* `InMemoryCache` — the Local Fallback Store: a key→value map with a
  separate key→expiry map and hit/miss/set/delete counters
  (`cache.py`, class `InMemoryCache`);
* `CacheManager` — the Cache Gateway: enabled flag, lazy connection, JSON
  serialization, TTL default (`cache.py`, class `CacheManager`);
* the content-cache policy helpers `get_cache_key`, `get_cached_content`,
  `set_cached_content`, `invalidate_content_cache`, `get_cache_ttl`
  (`cache.py`, module level).

Python strings are embedded as `List Char` (`Str`), Python dicts as
association lists, and wall-clock time (`datetime.now()`) as an explicit
`Nat` parameter threaded through every operation that reads the clock.
-/

namespace Cachepy

/-- Embedding of a Python `str`: a list of characters. -/
abbrev Str := List Char

/-- Dictionary lookup `d[k]` / `k in d` on an association-list embedding of a
Python `dict`. -/
def lookupKV {α : Type} : List (Str × α) → Str → Option α
  | [], _ => none
  | (k', v) :: t, k => if k' = k then some v else lookupKV t k

/-- Dictionary store `d[k] = v`: replaces the binding in place if present,
otherwise appends (Python dicts keep one binding per key). -/
def insertKV {α : Type} : List (Str × α) → Str → α → List (Str × α)
  | [], k, v => [(k, v)]
  | (k', v') :: t, k, v =>
    if k' = k then (k, v) :: t else (k', v') :: insertKV t k v

/-- Dictionary delete `del d[k]`: removes any binding of `k`. -/
def eraseKV {α : Type} : List (Str × α) → Str → List (Str × α)
  | [], _ => []
  | (k', v') :: t, k => if k' = k then eraseKV t k else (k', v') :: eraseKV t k

/-- The keys of a dict, in insertion order (`d.keys()`). -/
def keysOf {α : Type} (l : List (Str × α)) : List Str := l.map Prod.fst

/-- Embedding of Python `s.startswith(p)` on character lists. -/
def startsWithL : Str → Str → Bool
  | [], _ => true
  | _ :: _, [] => false
  | p :: ps, c :: cs => p == c && startsWithL ps cs

/-!
## JSON values and the textual encoding

The gateway serializes payloads with `json.dumps(value, default=str)` and
reads them back with `json.loads(value)` (`cache.py`, `CacheManager.set` /
`CacheManager.get`).  `JVal` is the type of JSON-representable Python values
(None, bools, ints, strings, lists, dicts).

Modelled from the spec: the `json` module is the Python standard library,
external to the repository's sources; the spec describes it only as "the
stored textual encoding" through which values round-trip ("serializes the
value to the stored textual encoding", "deserialize from the stored textual
encoding").  `dumps` below is a concrete executable textual encoding of
`JVal` and `loads` an executable parser for it; the round-trip law
`loads_dumps` and non-emptiness `dumps_ne_nil` are proved, not assumed.
-/
/-- JSON-representable values: `None`, booleans, integers, strings, lists and
string-keyed dicts. -/
inductive JVal where
  | null : JVal
  | jbool (b : Bool) : JVal
  | jnum (n : Int) : JVal
  | jstr (s : Str) : JVal
  | jarr (xs : List JVal) : JVal
  | jobj (fs : List (Str × JVal)) : JVal

/-- The decimal digit characters. -/
def digitChar : Nat → Char
  | 0 => '0' | 1 => '1' | 2 => '2' | 3 => '3' | 4 => '4'
  | 5 => '5' | 6 => '6' | 7 => '7' | 8 => '8' | _ => '9'

/-- Numeric value of a decimal digit character. -/
def digitVal (c : Char) : Nat := c.toNat - 48

/-- Is `c` a decimal digit? -/
def isDigitC (c : Char) : Bool := 48 ≤ c.toNat && c.toNat ≤ 57

/-- Little-endian base-10 digit list, fuel-structured so that it evaluates by
kernel reduction; `natDigits_eq` identifies it with `Nat.digits 10`. -/
def natDigitsAux : Nat → Nat → List Nat
  | 0, _ => []
  | _ + 1, 0 => []
  | f + 1, n + 1 => ((n + 1) % 10) :: natDigitsAux f ((n + 1) / 10)

/-- Little-endian base-10 digits of `n`. -/
def natDigits (n : Nat) : List Nat := natDigitsAux n n

/-- Decimal rendering of a natural number (empty for `0`, which the length
and count positions of the encoding parse back correctly). -/
def natChars (n : Nat) : Str := ((natDigits n).map digitChar).reverse

/-- Value of a big-endian string of decimal digits. -/
def natOfChars (cs : Str) : Nat := Nat.ofDigits 10 ((cs.map digitVal).reverse)

/-- Decimal rendering of an integer (minus sign for negatives). -/
def intChars (i : Int) : Str :=
  if i < 0 then '-' :: natChars i.natAbs else natChars i.natAbs

/-- Parse a decimal number terminated by `;`. -/
def parseNat (cs : Str) : Option (Nat × Str) :=
  match cs.dropWhile isDigitC with
  | ';' :: r => some (natOfChars (cs.takeWhile isDigitC), r)
  | _ => none

/-- Parse an optionally-signed decimal number terminated by `;`. -/
def parseInt (cs : Str) : Option (Int × Str) :=
  if cs.head? = some '-' then
    (parseNat cs.tail).map fun p => (-(p.1 : Int), p.2)
  else
    (parseNat cs).map fun p => ((p.1 : Int), p.2)

/-- Length-prefixed rendering of a string payload: `S<len>;<chars>`. -/
def renderStr (s : Str) : Str := 'S' :: (natChars s.length ++ ';' :: s)

mutual
/-- The textual encoding of a `JVal` (the model of `json.dumps`' output
format): a tag character followed by a length/digit-delimited body. -/
def render : JVal → Str
  | .null => ['N']
  | .jbool true => ['T']
  | .jbool false => ['F']
  | .jnum i => 'I' :: (intChars i ++ [';'])
  | .jstr s => renderStr s
  | .jarr xs => 'A' :: (natChars xs.length ++ ';' :: renderList xs)
  | .jobj fs => 'O' :: (natChars fs.length ++ ';' :: renderFields fs)

/-- Concatenated encodings of the elements of a JSON array. -/
def renderList : List JVal → Str
  | [] => []
  | x :: t => render x ++ renderList t

/-- Concatenated encodings of the key/value pairs of a JSON object. -/
def renderFields : List (Str × JVal) → Str
  | [] => []
  | (k, v) :: t => renderStr k ++ (render v ++ renderFields t)
end

mutual
/-- Node count of a `JVal`, used as the parser fuel bound. -/
def sizeJ : JVal → Nat
  | .null => 1
  | .jbool _ => 1
  | .jnum _ => 1
  | .jstr _ => 1
  | .jarr xs => 1 + sizeL xs
  | .jobj fs => 1 + sizeF fs

/-- Total node count of a list of values. -/
def sizeL : List JVal → Nat
  | [] => 0
  | x :: t => sizeJ x + sizeL t

/-- Total node count of the values of a field list. -/
def sizeF : List (Str × JVal) → Nat
  | [] => 0
  | kv :: t => sizeJ kv.2 + sizeF t
end

/-- Parse a length-prefixed string payload. -/
def parseStrBody (cs : Str) : Option (Str × Str) :=
  match parseNat cs with
  | some (n, r) => some (r.take n, r.drop n)
  | none => none

/-- Parse `n` consecutive array elements with element parser `p`. -/
def parseItemsAux (p : Str → Option (JVal × Str)) :
    Nat → Str → Option (List JVal × Str)
  | 0, cs => some ([], cs)
  | Nat.succ n, cs =>
    match p cs with
    | some (x, r) =>
      match parseItemsAux p n r with
      | some (xs, r') => some (x :: xs, r')
      | none => none
    | none => none

/-- Parse `n` consecutive object fields with value parser `p`. -/
def parseFieldsAux (p : Str → Option (JVal × Str)) :
    Nat → Str → Option (List (Str × JVal) × Str)
  | 0, cs => some ([], cs)
  | Nat.succ n, cs =>
    match cs with
    | 'S' :: r =>
      match parseStrBody r with
      | some (k, r') =>
        match p r' with
        | some (v, r'') =>
          match parseFieldsAux p n r'' with
          | some (fs, r''') => some ((k, v) :: fs, r''')
          | none => none
        | none => none
      | none => none
    | _ => none

/-- Fuel-indexed parser for the textual encoding: one value off the front of
the input, returning it with the unconsumed tail. -/
def parseV : Nat → Str → Option (JVal × Str)
  | 0, _ => none
  | Nat.succ f, cs =>
    match cs with
    | 'N' :: r => some (.null, r)
    | 'T' :: r => some (.jbool true, r)
    | 'F' :: r => some (.jbool false, r)
    | 'I' :: r =>
      match parseInt r with
      | some (i, r') => some (.jnum i, r')
      | none => none
    | 'S' :: r =>
      match parseStrBody r with
      | some (s, r') => some (.jstr s, r')
      | none => none
    | 'A' :: r =>
      match parseNat r with
      | some (n, r') =>
        match parseItemsAux (parseV f) n r' with
        | some (xs, r'') => some (.jarr xs, r'')
        | none => none
      | none => none
    | 'O' :: r =>
      match parseNat r with
      | some (n, r') =>
        match parseFieldsAux (parseV f) n r' with
        | some (fs, r'') => some (.jobj fs, r'')
        | none => none
      | none => none
    | _ => none

/-- Model of `json.dumps(value, default=str)`: serialize to text. -/
def dumps (v : JVal) : Str := render v

/-- Model of `json.loads`: parse the textual encoding, `none` models the
`json.loads` exception on invalid input. -/
def loads (cs : Str) : Option JVal :=
  match parseV (cs.length + 1) cs with
  | some (v, []) => some v
  | _ => none

/-!
## The Local Fallback Store (`class InMemoryCache`)

State: the value dict `self.cache`, the expiry dict `self.expiry`, and the
`self.stats` counters.  `datetime.now()` is embedded as an explicit `now : Nat`
argument to the operations that read the clock.
-/
/-- The `InMemoryCache.stats` counters. -/
structure Stats where
  hits : Nat
  misses : Nat
  sets : Nat
  deletes : Nat
deriving DecidableEq

/-- State of an `InMemoryCache` instance. -/
structure Mem where
  cache : List (Str × Str)
  expiry : List (Str × Nat)
  stats : Stats
deriving DecidableEq

/-- `InMemoryCache.__init__`: empty dicts, zero counters. -/
def Mem.empty : Mem := ⟨[], [], ⟨0, 0, 0, 0⟩⟩

/-- `InMemoryCache.delete`: drop the key from both dicts if present and
increment the delete counter (unconditionally, as in the source). -/
def memDelete (key : Str) (m : Mem) : Mem :=
  { cache := eraseKV m.cache key
    expiry := eraseKV m.expiry key
    stats := { m.stats with deletes := m.stats.deletes + 1 } }

/-- `InMemoryCache.get`: a hit if the key is present and (has no expiry record
or `now < expiry`); a read past expiration deletes the entry and falls through
to the miss path. -/
def memGet (now : Nat) (key : Str) (m : Mem) : Option Str × Mem :=
  match lookupKV m.cache key with
  | some v =>
    match lookupKV m.expiry key with
    | none => (some v, { m with stats := { m.stats with hits := m.stats.hits + 1 } })
    | some e =>
      if now < e then
        (some v, { m with stats := { m.stats with hits := m.stats.hits + 1 } })
      else
        let m' := memDelete key m
        (none, { m' with stats := { m'.stats with misses := m'.stats.misses + 1 } })
  | none => (none, { m with stats := { m.stats with misses := m.stats.misses + 1 } })

/-- `InMemoryCache.set`: store the value; write an expiry record only when
`ttl` is truthy (`if ttl:`); increment the set counter. -/
def memSet (now : Nat) (key value : Str) (ttl : Nat) (m : Mem) : Mem :=
  { cache := insertKV m.cache key value
    expiry := if ttl ≠ 0 then insertKV m.expiry key (now + ttl) else m.expiry
    stats := { m.stats with sets := m.stats.sets + 1 } }

/-- `InMemoryCache.clear_pattern`: with a `*` in the pattern, delete every key
starting with `pattern.replace("*", "")`; otherwise delete keys equal to the
pattern; return how many keys were collected. -/
def memClearPattern (pattern : Str) (m : Mem) : Nat × Mem :=
  let keysToDelete :=
    if '*' ∈ pattern then
      let pre := pattern.filter (fun c => c != '*')
      (keysOf m.cache).filter (fun k => startsWithL pre k)
    else
      (keysOf m.cache).filter (fun k => k == pattern)
  (keysToDelete.length, keysToDelete.foldl (fun acc k => memDelete k acc) m)

/-!
## The Cache Gateway (`class CacheManager`)

`cache_enabled` defaults to true and `redis_client` to `None`; the first call
on any public method connects lazily.  `connect` tries the remote Redis
endpoint first.

Modelled from the spec: the `redis` client library and the Redis server are
external to the repository's sources; this embedding takes the spec's fallback
scenario ("if the remote backend is unreachable at first use, all subsequent
`get`/`set`/`delete` calls succeed against the Local Fallback Store"), in
which `connect`'s ping raises, the exception is caught, and a fresh
`InMemoryCache()` becomes the active client.  The gateway over an arbitrary
(possibly failing) backend is modelled separately below for the totality
contract.
-/
/-- Gateway state: the enabled flag and the lazily-installed client. -/
structure CMState where
  cache_enabled : Bool
  client : Option Mem
deriving DecidableEq

/-- `CacheManager.__init__`. -/
def CMState.init : CMState := ⟨true, none⟩

/-- `CacheManager.default_ttl` (1 hour). -/
def default_ttl : Nat := 3600

/-- `CacheManager.connect` with the remote endpoint unreachable: installs a
fresh `InMemoryCache()`. -/
def connectCM (st : CMState) : CMState := { st with client := some Mem.empty }

/-- `if not self.redis_client: self.connect()`, then read off the client. -/
def getClient (st : CMState) : Mem × CMState :=
  match st.client with
  | some m => (m, st)
  | none => (Mem.empty, connectCM st)

/-- `ttl = ttl or self.default_ttl`: `None` and `0` are falsy. -/
def resolveTtl : Option Nat → Nat
  | none => default_ttl
  | some 0 => default_ttl
  | some (n + 1) => n + 1

/-- `CacheManager.get`: disabled short-circuit, lazy connect, fetch the raw
string, `if value:` truthiness, `json.loads`.  A `loads` failure is the
in-`try` exception path, caught and turned into `None`. -/
def cmGet (now : Nat) (key : Str) (st : CMState) : Option JVal × CMState :=
  if st.cache_enabled then
    let p := getClient st
    let r := memGet now key p.1
    let st2 := { p.2 with client := some r.2 }
    match r.1 with
    | some s => if s = [] then (none, st2) else (loads s, st2)
    | none => (none, st2)
  else (none, st)

/-- `CacheManager.set`: disabled short-circuit, lazy connect, TTL resolution,
`json.dumps`, store on the in-memory client (the non-`setex` branch), return
`True`. -/
def cmSet (now : Nat) (key : Str) (value : JVal) (ttl : Option Nat) (st : CMState) :
    Bool × CMState :=
  if st.cache_enabled then
    let p := getClient st
    let m' := memSet now key (dumps value) (resolveTtl ttl) p.1
    (true, { p.2 with client := some m' })
  else (false, st)

/-- `CacheManager.delete`: disabled short-circuit, delete on the client,
return `True`. -/
def cmDelete (key : Str) (st : CMState) : Bool × CMState :=
  if st.cache_enabled then
    let p := getClient st
    (true, { p.2 with client := some (memDelete key p.1) })
  else (false, st)

/-- `CacheManager.clear_pattern`: disabled short-circuit, the in-memory branch
(`InMemoryCache` has no `keys` attribute), returning the removed count. -/
def cmClearPattern (pattern : Str) (st : CMState) : Nat × CMState :=
  if st.cache_enabled then
    let p := getClient st
    let r := memClearPattern pattern p.1
    (r.1, { p.2 with client := some r.2 })
  else (0, st)

/-!
## The Content Cache Policy (module-level helpers of `cache.py`)
-/
/-- Character-list form of a string literal. -/
def strL (s : String) : Str := s.data

/-- `":".join(parts)`. -/
def joinC : List Str → Str
  | [] => []
  | [s] => s
  | s :: t => s ++ ':' :: joinC t

/-- `get_cache_key(prefix, identifier="", **kwargs)`: join `[prefix]`, the
identifier when truthy, and one `f"{k}:{v}"` part per keyword pair — in the
order the keyword arguments were passed — with `":"`. -/
def get_cache_key (pre identifier : Str) (kwargs : List (Str × Str)) : Str :=
  joinC ([pre] ++ (if identifier = [] then [] else [identifier])
    ++ kwargs.map (fun kv => kv.1 ++ ':' :: kv.2))

/-- `get_cached_content(content_type, filters)`: build the key from
`f"content:{content_type}"` and the filters, then `cache_manager.get`. -/
def get_cached_content (content_type : Str) (filters : List (Str × Str))
    (now : Nat) (st : CMState) : Option JVal × CMState :=
  cmGet now (get_cache_key (strL "content:" ++ content_type) [] filters) st

/-- `set_cached_content(content_type, content, filters, ttl=None)`: build the
same key and `cache_manager.set` with the `ttl` argument passed through
unchanged. -/
def set_cached_content (content_type : Str) (content : JVal)
    (filters : List (Str × Str)) (ttl : Option Nat) (now : Nat) (st : CMState) :
    Bool × CMState :=
  cmSet now (get_cache_key (strL "content:" ++ content_type) [] filters) content ttl st

/-- `invalidate_content_cache(content_type)`: clear the wildcard pattern
`f"content:{content_type}:*"`. -/
def invalidate_content_cache (content_type : Str) (st : CMState) : Nat × CMState :=
  cmClearPattern (strL "content:" ++ content_type ++ strL ":*") st

/-- The `CACHE_TTL_CONFIG` table. -/
def CACHE_TTL_CONFIG : List (Str × Nat) :=
  [ (strL "hero_content", 3600)
  , (strL "site_settings", 7200)
  , (strL "navigation", 7200)
  , (strL "footer_sections", 7200)
  , (strL "features", 1800)
  , (strL "testimonials", 1800)
  , (strL "process_steps", 1800)
  , (strL "specifications", 1800)
  , (strL "newsletter_signups", 300)
  , (strL "contact_forms", 300)
  , (strL "page_views", 60)
  , (strL "search_results", 600) ]

/-- `get_cache_ttl(content_type)`: table lookup with default 3600. -/
def get_cache_ttl (content_type : Str) : Nat :=
  (lookupKV CACHE_TTL_CONFIG content_type).getD 3600

/-!
## The Cache Gateway over an arbitrary backend

For the totality contract ("for every behavior of the active backend … never
propagate an exception") the active client is abstracted: a `Backend` is any
state type with the four operations the gateway calls, each returning either a
normal result (`Except.ok`) or a raised exception (`Except.error`) together
with the backend's next state (the backend object mutates in place, so its
state advances even when the call raises).  The duck-typed `setex`/`set` and
`keys`/`clear_pattern` dispatch in the source selects one concrete call per
operation; the model gives the backend exactly one operation per gateway
method.  `b.init` is the freshly-connected client `connect` installs. -/
structure Backend (σ : Type) where
  bget : Str → σ → Except Unit (Option Str) × σ
  bset : Str → Str → Nat → σ → Except Unit Unit × σ
  bdel : Str → σ → Except Unit Unit × σ
  bclear : Str → σ → Except Unit Nat × σ
  init : σ

/-- Gateway state over an abstract backend. -/
structure CMB (σ : Type) where
  cache_enabled : Bool
  client : Option σ

/-- The client the next call will use: the installed one, else the one lazy
connection installs. -/
def activeClient {σ : Type} (b : Backend σ) (st : CMB σ) : σ := st.client.getD b.init

/-- `CacheManager.get` over an arbitrary backend.  The first component records
what reaches the caller: `Except.ok` is a normal return, `Except.error` would
be a propagated exception.  Every raising path of the `try:` body lands in the
`except` clause, which returns `None`. -/
def cmGetB {σ : Type} (b : Backend σ) (key : Str) (st : CMB σ) :
    Except Unit (Option JVal) × CMB σ :=
  if st.cache_enabled then
    let s0 := activeClient b st
    match b.bget key s0 with
    | (.ok v?, s') =>
      let st2 : CMB σ := ⟨st.cache_enabled, some s'⟩
      match v? with
      | some s =>
        if s = [] then (.ok none, st2)
        else
          match loads s with
          | some j => (.ok (some j), st2)
          | none => (.ok none, st2)
      | none => (.ok none, st2)
    | (.error _, s') => (.ok none, ⟨st.cache_enabled, some s'⟩)
  else (.ok none, st)

/-- `CacheManager.set` over an arbitrary backend: serialize, resolve the TTL,
write; a raising backend call is caught and yields `False`. -/
def cmSetB {σ : Type} (b : Backend σ) (key : Str) (value : JVal) (ttl : Option Nat)
    (st : CMB σ) : Except Unit Bool × CMB σ :=
  if st.cache_enabled then
    let s0 := activeClient b st
    match b.bset key (dumps value) (resolveTtl ttl) s0 with
    | (.ok _, s') => (.ok true, ⟨st.cache_enabled, some s'⟩)
    | (.error _, s') => (.ok false, ⟨st.cache_enabled, some s'⟩)
  else (.ok false, st)

/-- `CacheManager.delete` over an arbitrary backend. -/
def cmDeleteB {σ : Type} (b : Backend σ) (key : Str) (st : CMB σ) :
    Except Unit Bool × CMB σ :=
  if st.cache_enabled then
    let s0 := activeClient b st
    match b.bdel key s0 with
    | (.ok _, s') => (.ok true, ⟨st.cache_enabled, some s'⟩)
    | (.error _, s') => (.ok false, ⟨st.cache_enabled, some s'⟩)
  else (.ok false, st)

/-- `CacheManager.clear_pattern` over an arbitrary backend. -/
def cmClearPatternB {σ : Type} (b : Backend σ) (pattern : Str) (st : CMB σ) :
    Except Unit Nat × CMB σ :=
  if st.cache_enabled then
    let s0 := activeClient b st
    match b.bclear pattern s0 with
    | (.ok n, s') => (.ok n, ⟨st.cache_enabled, some s'⟩)
    | (.error _, s') => (.ok 0, ⟨st.cache_enabled, some s'⟩)
  else (.ok 0, st)

/-- The tail a `":".join` produces after its first part: a leading `:` before
each remaining part. -/
def colonParts : List Str → Str
  | [] => []
  | p :: t => ':' :: (p ++ colonParts t)

/-- The Local Fallback Store states reachable from a fresh `InMemoryCache()`
by any sequence of `get`/`set`/`delete`/`clear_pattern` calls, at any clock
readings. -/
inductive ReachableMem : Mem → Prop where
  | empty : ReachableMem Mem.empty
  | get (now : Nat) (key : Str) {m : Mem} :
      ReachableMem m → ReachableMem (memGet now key m).2
  | set (now : Nat) (key value : Str) (ttl : Nat) {m : Mem} :
      ReachableMem m → ReachableMem (memSet now key value ttl m)
  | del (key : Str) {m : Mem} :
      ReachableMem m → ReachableMem (memDelete key m)
  | clear (pattern : Str) {m : Mem} :
      ReachableMem m → ReachableMem (memClearPattern pattern m).2

/-!
## Lemmas and theorems
-/

theorem lookupKV_insertKV_self {α : Type} (l : List (Str × α)) (k : Str) (v : α) :
    lookupKV (insertKV l k v) k = some v := by
  induction l with
  | nil => simp [insertKV, lookupKV]
  | cons h t ih =>
    obtain ⟨k', v'⟩ := h
    by_cases hk : k' = k
    · simp [insertKV, hk, lookupKV]
    · simp [insertKV, hk, lookupKV, ih]

theorem lookupKV_insertKV_ne {α : Type} (l : List (Str × α)) (k k' : Str) (v : α)
    (h : k ≠ k') : lookupKV (insertKV l k v) k' = lookupKV l k' := by
  induction l with
  | nil => simp [insertKV, lookupKV, h]
  | cons hd t ih =>
    obtain ⟨k₀, v₀⟩ := hd
    by_cases hk : k₀ = k
    · subst hk
      simp [insertKV, lookupKV, h]
    · simp [insertKV, hk, lookupKV, ih]

theorem lookupKV_eraseKV_self {α : Type} (l : List (Str × α)) (k : Str) :
    lookupKV (eraseKV l k) k = none := by
  induction l with
  | nil => simp [eraseKV, lookupKV]
  | cons hd t ih =>
    obtain ⟨k₀, v₀⟩ := hd
    by_cases hk : k₀ = k
    · simp [eraseKV, hk, ih]
    · simp [eraseKV, hk, lookupKV, ih]

theorem lookupKV_eraseKV_ne {α : Type} (l : List (Str × α)) (k k' : Str)
    (h : k ≠ k') : lookupKV (eraseKV l k) k' = lookupKV l k' := by
  induction l with
  | nil => simp [eraseKV]
  | cons hd t ih =>
    obtain ⟨k₀, v₀⟩ := hd
    by_cases hk : k₀ = k
    · subst hk
      have hne : k₀ ≠ k' := h
      simp [eraseKV, lookupKV, hne, ih]
    · simp [eraseKV, hk, lookupKV, ih]

theorem startsWithL_append (p r : Str) : startsWithL p (p ++ r) = true := by
  induction p with
  | nil => rfl
  | cons c cs ih => simp [startsWithL, ih]

theorem natDigitsAux_eq (f : Nat) :
    ∀ n, n ≤ f → natDigitsAux f n = Nat.digits 10 n := by
  induction f with
  | zero =>
    intro n hn
    interval_cases n
    simp [natDigitsAux]
  | succ f ih =>
    intro n hn
    cases n with
    | zero => simp [natDigitsAux]
    | succ m =>
      have hdiv : (m + 1) / 10 ≤ f := by
        have := Nat.div_lt_self (Nat.succ_pos m) (by norm_num : 1 < 10)
        omega
      rw [natDigitsAux, ih _ hdiv, Nat.digits_add_two_add_one]

theorem natDigits_eq (n : Nat) : natDigits n = Nat.digits 10 n :=
  natDigitsAux_eq n n le_rfl

theorem digitVal_digitChar {d : Nat} (h : d < 10) : digitVal (digitChar d) = d := by
  interval_cases d <;> rfl

theorem isDigitC_digitChar {d : Nat} (h : d < 10) : isDigitC (digitChar d) = true := by
  interval_cases d <;> rfl

theorem mem_natChars_isDigitC (n : Nat) : ∀ c ∈ natChars n, isDigitC c = true := by
  intro c hc
  simp only [natChars, natDigits_eq, List.mem_reverse, List.mem_map] at hc
  obtain ⟨d, hd, rfl⟩ := hc
  exact isDigitC_digitChar (Nat.digits_lt_base (by norm_num) hd)

theorem natOfChars_natChars (n : Nat) : natOfChars (natChars n) = n := by
  unfold natOfChars natChars
  rw [natDigits_eq]
  rw [List.map_reverse, List.reverse_reverse, List.map_map]
  have h : ∀ d ∈ Nat.digits 10 n, (digitVal ∘ digitChar) d = id d := by
    intro d hd
    simpa using digitVal_digitChar (Nat.digits_lt_base (by norm_num) hd)
  rw [List.map_congr_left h, List.map_id, Nat.ofDigits_digits]

theorem takeWhile_all_append {p : Char → Bool} {l1 : Str} (c : Char) (l2 : Str)
    (h1 : ∀ c' ∈ l1, p c' = true) (h2 : p c = false) :
    (l1 ++ c :: l2).takeWhile p = l1 := by
  induction l1 with
  | nil => simp [List.takeWhile, h2]
  | cons a t ih =>
    have ha : p a = true := h1 a (by simp)
    simp only [List.cons_append, List.takeWhile_cons, ha]
    simp [ih fun c' hc' => h1 c' (by simp [hc'])]

theorem dropWhile_all_append {p : Char → Bool} {l1 : Str} (c : Char) (l2 : Str)
    (h1 : ∀ c' ∈ l1, p c' = true) (h2 : p c = false) :
    (l1 ++ c :: l2).dropWhile p = c :: l2 := by
  induction l1 with
  | nil => simp [List.dropWhile, h2]
  | cons a t ih =>
    have ha : p a = true := h1 a (by simp)
    simp only [List.cons_append, List.dropWhile_cons, ha]
    simp [ih fun c' hc' => h1 c' (by simp [hc'])]

theorem parseNat_spec (n : Nat) (rest : Str) :
    parseNat (natChars n ++ ';' :: rest) = some (n, rest) := by
  unfold parseNat
  rw [dropWhile_all_append ';' rest (mem_natChars_isDigitC n) (by rfl),
      takeWhile_all_append ';' rest (mem_natChars_isDigitC n) (by rfl)]
  simp [natOfChars_natChars]

theorem head_natChars_ne_minus (n : Nat) (c : Char) (r : Str)
    (h : natChars n = c :: r) : c ≠ '-' := by
  intro hc
  have : isDigitC c = true := mem_natChars_isDigitC n c (by rw [h]; simp)
  rw [hc] at this
  exact absurd this (by decide)

theorem parseInt_spec (i : Int) (rest : Str) :
    parseInt (intChars i ++ ';' :: rest) = some (i, rest) := by
  by_cases hi : i < 0
  · have h1 : intChars i = '-' :: natChars i.natAbs := by
      unfold intChars; rw [if_pos hi]
    rw [h1]
    unfold parseInt
    simp only [List.cons_append, List.head?_cons, List.tail_cons]
    rw [if_pos trivial, parseNat_spec]
    show some ((-(i.natAbs : Int) : Int), rest) = some (i, rest)
    have hn : -(i.natAbs : Int) = i := by omega
    rw [hn]
  · have h1 : intChars i = natChars i.natAbs := by
      unfold intChars; rw [if_neg hi]
    rw [h1]
    unfold parseInt
    have hhead : ¬ (natChars i.natAbs ++ ';' :: rest).head? = some '-' := by
      cases h : natChars i.natAbs with
      | nil => simp only [List.nil_append, List.head?_cons]; decide
      | cons c r =>
        have hne := head_natChars_ne_minus i.natAbs c r h
        simp only [List.cons_append, List.head?_cons, Option.some.injEq]
        exact hne
    rw [if_neg hhead, parseNat_spec]
    show some (((i.natAbs : Int) : Int), rest) = some (i, rest)
    have hn : (i.natAbs : Int) = i := by omega
    rw [hn]

theorem take_len_append (a b : Str) : (a ++ b).take a.length = a := by
  induction a with
  | nil => simp
  | cons c t ih => simp [ih]

theorem drop_len_append (a b : Str) : (a ++ b).drop a.length = b := by
  induction a with
  | nil => simp
  | cons c t ih => simp [ih]

theorem parseStrBody_spec (s rest : Str) :
    parseStrBody (natChars s.length ++ ';' :: (s ++ rest)) = some (s, rest) := by
  unfold parseStrBody
  rw [parseNat_spec]
  simp [take_len_append, drop_len_append]

theorem sizeJ_pos (j : JVal) : 1 ≤ sizeJ j := by
  cases j <;> simp [sizeJ]

theorem sizeJ_le_sizeL_of_mem {x : JVal} {xs : List JVal} (h : x ∈ xs) :
    sizeJ x ≤ sizeL xs := by
  induction xs with
  | nil => cases h
  | cons y t ih =>
    rcases List.mem_cons.mp h with rfl | hm
    · simp [sizeL]
    · have := ih hm
      simp [sizeL]
      omega

theorem sizeJ_le_sizeF_of_mem {kv : Str × JVal} {fs : List (Str × JVal)}
    (h : kv ∈ fs) : sizeJ kv.2 ≤ sizeF fs := by
  induction fs with
  | nil => cases h
  | cons y t ih =>
    rcases List.mem_cons.mp h with rfl | hm
    · simp [sizeF]
    · have := ih hm
      simp [sizeF]
      omega

theorem parseItemsAux_renderList (f : Nat)
    (ih : ∀ j rest, sizeJ j < f → parseV f (render j ++ rest) = some (j, rest)) :
    ∀ xs rest, sizeL xs < f →
      parseItemsAux (parseV f) xs.length (renderList xs ++ rest) = some (xs, rest) := by
  intro xs
  induction xs with
  | nil =>
    intro rest _
    simp [renderList, parseItemsAux]
  | cons x t iht =>
    intro rest h
    have hsx : sizeJ x < f := by
      have : sizeJ x ≤ sizeL (x :: t) := sizeJ_le_sizeL_of_mem (by simp)
      omega
    have hst : sizeL t < f := by
      simp [sizeL] at h
      have := sizeJ_pos x
      omega
    show parseItemsAux (parseV f) (t.length + 1) (renderList (x :: t) ++ rest)
        = some (x :: t, rest)
    rw [renderList, List.append_assoc]
    simp [parseItemsAux, ih x (renderList t ++ rest) hsx, iht rest hst]

theorem parseFieldsAux_renderFields (f : Nat)
    (ih : ∀ j rest, sizeJ j < f → parseV f (render j ++ rest) = some (j, rest)) :
    ∀ fs rest, sizeF fs < f →
      parseFieldsAux (parseV f) fs.length (renderFields fs ++ rest) = some (fs, rest) := by
  intro fs
  induction fs with
  | nil =>
    intro rest _
    simp [renderFields, parseFieldsAux]
  | cons kv t iht =>
    intro rest h
    obtain ⟨k, v⟩ := kv
    have hsv : sizeJ v < f := by
      have hm : sizeJ v ≤ sizeF ((k, v) :: t) :=
        @sizeJ_le_sizeF_of_mem (k, v) ((k, v) :: t) (by simp)
      omega
    have hst : sizeF t < f := by
      simp [sizeF] at h
      have := sizeJ_pos v
      omega
    show parseFieldsAux (parseV f) (t.length + 1) (renderFields ((k, v) :: t) ++ rest)
        = some ((k, v) :: t, rest)
    rw [renderFields, renderStr]
    simp only [List.cons_append, List.append_assoc]
    simp [parseFieldsAux, parseStrBody_spec k (render v ++ (renderFields t ++ rest)),
          ih v (renderFields t ++ rest) hsv, iht rest hst]

theorem parseV_render :
    ∀ f j rest, sizeJ j < f → parseV f (render j ++ rest) = some (j, rest) := by
  intro f
  induction f with
  | zero =>
    intro j rest h
    have := sizeJ_pos j
    omega
  | succ f ihf =>
    intro j rest h
    cases j with
    | null => simp [render, parseV]
    | jbool b => cases b <;> simp [render, parseV]
    | jnum i =>
      simp [render, parseV, parseInt_spec]
    | jstr s =>
      simp [render, renderStr, parseV, parseStrBody_spec]
    | jarr xs =>
      have hsl : sizeL xs < f := by
        simp [sizeJ] at h
        omega
      simp [render, parseV, parseNat_spec, parseItemsAux_renderList f ihf xs rest hsl]
    | jobj fs =>
      have hsf : sizeF fs < f := by
        simp [sizeJ] at h
        omega
      simp [render, parseV, parseNat_spec, parseFieldsAux_renderFields f ihf fs rest hsf]

mutual
theorem sizeJ_le_render_length : (j : JVal) → sizeJ j ≤ (render j).length
  | .null => by simp [sizeJ, render]
  | .jbool b => by cases b <;> simp [sizeJ, render]
  | .jnum i => by simp [sizeJ, render]
  | .jstr s => by simp [sizeJ, render, renderStr]
  | .jarr xs => by
    have h := sizeL_le_renderList_length xs
    simp [sizeJ, render]
    omega
  | .jobj fs => by
    have h := sizeF_le_renderFields_length fs
    simp [sizeJ, render]
    omega

theorem sizeL_le_renderList_length : (xs : List JVal) → sizeL xs ≤ (renderList xs).length
  | [] => by simp [sizeL, renderList]
  | x :: t => by
    have h1 := sizeJ_le_render_length x
    have h2 := sizeL_le_renderList_length t
    simp [sizeL, renderList]
    omega

theorem sizeF_le_renderFields_length :
    (fs : List (Str × JVal)) → sizeF fs ≤ (renderFields fs).length
  | [] => by simp [sizeF, renderFields]
  | (k, v) :: t => by
    have h1 := sizeJ_le_render_length v
    have h2 := sizeF_le_renderFields_length t
    simp [sizeF, renderFields]
    omega
end

/-- The textual encoding round-trips: parsing the serialization of any value
returns that value. -/
theorem loads_dumps (v : JVal) : loads (dumps v) = some v := by
  unfold loads dumps
  have hf : sizeJ v < (render v).length + 1 :=
    Nat.lt_succ_of_le (sizeJ_le_render_length v)
  have h := parseV_render ((render v).length + 1) v [] hf
  rw [List.append_nil] at h
  rw [h]

/-- The serialization of any value is a non-empty string (so the gateway's
`if value:` truthiness test on a stored serialization always passes). -/
theorem dumps_ne_nil (v : JVal) : dumps v ≠ [] := by
  cases v with
  | null => simp [dumps, render]
  | jbool b => cases b <;> simp [dumps, render]
  | jnum i => simp [dumps, render]
  | jstr s => simp [dumps, render, renderStr]
  | jarr xs => simp [dumps, render]
  | jobj fs => simp [dumps, render]

/-!
## Claim C2: the cache-key builder
-/

theorem joinC_cons (s : Str) (parts : List Str) :
    joinC (s :: parts) = s ++ colonParts parts := by
  induction parts generalizing s with
  | nil => simp [joinC, colonParts]
  | cons p t ih =>
    show joinC (s :: p :: t) = s ++ colonParts (p :: t)
    have hstep : joinC (s :: p :: t) = s ++ ':' :: joinC (p :: t) := rfl
    rw [hstep, ih p]
    simp [colonParts]

/-- C2 (amended): `get_cache_key` is a pure function of the prefix, the
identifier, and the **sequence** of filter pairs in the order they are
passed: it equals the concatenation of the prefix, `:identifier` when the
identifier is truthy, and `:{k}:{v}` for each filter pair in passed order.
(Permuting the filter pairs may change the key — see the counterexample.) -/
theorem get_cache_key_formula (pre identifier : Str) (kwargs : List (Str × Str)) :
    get_cache_key pre identifier kwargs
      = pre ++ (if identifier = [] then [] else ':' :: identifier)
          ++ colonParts (kwargs.map (fun kv => kv.1 ++ ':' :: kv.2)) := by
  unfold get_cache_key
  by_cases hid : identifier = []
  · simp only [hid, if_true, if_false]
    rw [show [pre] ++ [] ++ kwargs.map (fun kv => kv.1 ++ ':' :: kv.2)
          = pre :: kwargs.map (fun kv => kv.1 ++ ':' :: kv.2) by simp]
    rw [joinC_cons]
    simp
  · simp only [hid, if_true, if_false]
    rw [show [pre] ++ [identifier] ++ kwargs.map (fun kv => kv.1 ++ ':' :: kv.2)
          = pre :: identifier :: kwargs.map (fun kv => kv.1 ++ ':' :: kv.2) by simp]
    rw [joinC_cons]
    simp [colonParts]

/-- C2 counterexample: two calls with the same prefix, the same (empty)
identifier, and the same **set** of filter pairs — passed in different orders —
produce different key strings, refuting order-independence of
`get_cache_key`. -/
theorem get_cache_key_filter_order_cex :
    [(strL "a", strL "1"), (strL "b", strL "2")].Perm
        [(strL "b", strL "2"), (strL "a", strL "1")]
    ∧ get_cache_key (strL "content:features") []
          [(strL "a", strL "1"), (strL "b", strL "2")]
        ≠ get_cache_key (strL "content:features") []
          [(strL "b", strL "2"), (strL "a", strL "1")] := by
  constructor
  · exact List.Perm.swap _ _ _
  · decide

/-!
## Claim C3: the TTL written by `set_cached_content`
-/

/-- C3 counterexample: from a fresh manager at time 0,
`set_cached_content("features", [], ttl=None)` writes the entry with expiry
`0 + 3600` (the gateway default), although the TTL-policy table says
`get_cache_ttl("features") = 1800` — the table is not consulted. -/
theorem set_cached_content_ttl_table_cex :
    lookupKV ((set_cached_content (strL "features") (.jarr []) [] none 0
            CMState.init).2.client.getD Mem.empty).expiry (strL "content:features")
        = some 3600
    ∧ get_cache_ttl (strL "features") = 1800 := ⟨rfl, rfl⟩

/-- C3 (amended): for every content type, list value and filter mapping, a
`set_cached_content` call without an explicit ttl writes the cache entry with
TTL equal to the gateway default of 3600 seconds (`default_ttl`), regardless
of the content type; `CACHE_TTL_CONFIG`/`get_cache_ttl` are not consulted on
this path. -/
theorem set_cached_content_default_ttl (t : Str) (v : JVal) (f : List (Str × Str))
    (st : CMState) (now : Nat) (h : st.cache_enabled = true) :
    lookupKV ((set_cached_content t v f none now st).2.client.getD Mem.empty).expiry
        (get_cache_key (strL "content:" ++ t) [] f) = some (now + default_ttl) := by
  unfold set_cached_content cmSet
  cases hc : st.client <;>
    simp [h, hc, getClient, connectCM, memSet, resolveTtl, default_ttl,
          lookupKV_insertKV_self]

/-- Witness for C3's amended theorem at a concrete input. -/
theorem set_cached_content_default_ttl_witness :
    lookupKV ((set_cached_content (strL "testimonials") (.jarr []) [] none 7
            CMState.init).2.client.getD Mem.empty).expiry
        (get_cache_key (strL "content:" ++ strL "testimonials") [] [])
      = some (7 + default_ttl) :=
  set_cached_content_default_ttl (strL "testimonials") (.jarr []) [] CMState.init 7 rfl

/-!
## Claim C5: falsy ttl on the Local Fallback Store
-/

/-- C5 counterexample: `set(k, v1, ttl=10)` at time 0, then `set(k, v2, ttl=0)`
at time 1, leaves the stale expiry record `10` in place, so `get(k)` at time 20
returns absent — not the stored value that the claim promises for a
falsy-ttl entry. -/
theorem memSet_zero_ttl_stale_expiry_cex :
    (memGet 20 (strL "k")
        (memSet 1 (strL "k") (strL "v2") 0
          (memSet 0 (strL "k") (strL "v1") 10 Mem.empty))).1 = none := rfl

/-- C5 (amended): after `set(key, value, ttl_seconds)` with falsy/zero
`ttl_seconds`, the entry never expires — `get(key)` at any later time returns
the stored value — **provided the key has no pre-existing expiration record**;
a falsy-ttl set does not clear a prior record, which stays in effect. -/
theorem memSet_zero_ttl_no_expiry (key value : Str) (m : Mem) (now nowr : Nat)
    (h : lookupKV m.expiry key = none) :
    (memGet nowr key (memSet now key value 0 m)).1 = some value := by
  unfold memSet memGet
  simp [lookupKV_insertKV_self, h]

/-- Witness for C5's amended theorem at a concrete input. -/
theorem memSet_zero_ttl_no_expiry_witness :
    (memGet 1000000 (strL "k") (memSet 0 (strL "k") (strL "v") 0 Mem.empty)).1
      = some (strL "v") :=
  memSet_zero_ttl_no_expiry (strL "k") (strL "v") Mem.empty 0 1000000 rfl

/-!
## Claim C9: disabled cache short-circuit
-/

/-- C9: with the cache-enabled flag false, `CacheManager.get` returns absent
and `CacheManager.set` returns `False`, and both leave the gateway state —
including the active client and its counters, and the unconnected status —
completely unchanged (no backend call, no connection). -/
theorem cacheManager_disabled_noop (st : CMState) (key : Str) (v : JVal)
    (ttl : Option Nat) (now now' : Nat) (h : st.cache_enabled = false) :
    cmGet now key st = (none, st) ∧ cmSet now' key v ttl st = (false, st) := by
  constructor <;> simp [cmGet, cmSet, h]

/-- Witness for C9 at a concrete input. -/
theorem cacheManager_disabled_noop_witness :
    cmGet 0 (strL "k") ⟨false, none⟩ = (none, ⟨false, none⟩)
    ∧ cmSet 0 (strL "k") JVal.null none ⟨false, none⟩ = (false, ⟨false, none⟩) :=
  cacheManager_disabled_noop ⟨false, none⟩ (strL "k") JVal.null none 0 0 rfl

/-!
## Claim C1: invalidation misses the bare (no-filter) key
-/

/-- C1 (code behavior at the failing input): from a fresh manager,
`set_cached_content("features", ["x"], filters={})` stores under the bare key
`content:features`; `invalidate_content_cache("features")` clears only
`content:features:*`-prefixed keys, so the following
`get_cached_content("features", {})` still returns the stale value instead of
missing. -/
theorem invalidate_misses_bare_key :
    (get_cached_content (strL "features") [] 0
        (invalidate_content_cache (strL "features")
          (set_cached_content (strL "features") (.jarr [.jstr (strL "x")]) [] none 0
            CMState.init).2).2).1
      = some (.jarr [.jstr (strL "x")]) := rfl

/-!
## Claim C6: lazy expiration on read
-/

/-- C6: on the Local Fallback Store, for a key holding an entry and an
expiration record, a `get` at `now ≥ expires_at` returns absent, evicts the
entry and its expiration record as a side effect, and increments the miss
counter; a `get` at `now < expires_at` returns the stored value and increments
the hit counter. -/
theorem memGet_expiration (m : Mem) (key v : Str) (e now : Nat)
    (hc : lookupKV m.cache key = some v) (he : lookupKV m.expiry key = some e) :
    (e ≤ now →
      (memGet now key m).1 = none
      ∧ lookupKV (memGet now key m).2.cache key = none
      ∧ lookupKV (memGet now key m).2.expiry key = none
      ∧ (memGet now key m).2.stats.misses = m.stats.misses + 1)
    ∧ (now < e →
      (memGet now key m).1 = some v
      ∧ (memGet now key m).2.stats.hits = m.stats.hits + 1) := by
  constructor
  · intro hle
    have hnlt : ¬ now < e := by omega
    unfold memGet
    rw [hc, he]
    simp [hnlt, memDelete, lookupKV_eraseKV_self]
  · intro hlt
    unfold memGet
    rw [hc, he]
    simp [hlt]

/-- Witness for C6 at a concrete input (expired and unexpired reads). -/
theorem memGet_expiration_witness :
    (memGet 5 (strL "k") (memSet 0 (strL "k") (strL "v") 5 Mem.empty)).1 = none
    ∧ (memGet 4 (strL "k") (memSet 0 (strL "k") (strL "v") 5 Mem.empty)).1
        = some (strL "v") :=
  ⟨((memGet_expiration (memSet 0 (strL "k") (strL "v") 5 Mem.empty)
      (strL "k") (strL "v") 5 5 rfl rfl).1 (by decide)).1,
   ((memGet_expiration (memSet 0 (strL "k") (strL "v") 5 Mem.empty)
      (strL "k") (strL "v") 5 4 rfl rfl).2 (by decide)).1⟩

/-!
## Claim C7: round-trip through the textual serialization
-/

/-- C7: for every content type, filter mapping, and JSON-representable value
(including the empty list and nested mappings), `set_cached_content` followed
immediately by `get_cached_content` with the same filters returns a value
equal to the one stored: the value round-trips unchanged through the textual
serialization and the cache. -/
theorem cached_content_roundtrip (t : Str) (v : JVal) (f : List (Str × Str))
    (st : CMState) (now : Nat) (h : st.cache_enabled = true) :
    (get_cached_content t f now (set_cached_content t v f none now st).2).1
      = some v := by
  unfold set_cached_content get_cached_content cmSet cmGet
  have hlt : now < now + 3600 := by omega
  cases hc : st.client <;>
    simp [h, hc, getClient, connectCM, memSet, memGet, resolveTtl, default_ttl,
          lookupKV_insertKV_self, dumps_ne_nil, loads_dumps, hlt]

/-- Witness for C7 at a concrete input (a nested mapping with an empty list). -/
theorem cached_content_roundtrip_witness :
    (get_cached_content (strL "features") [(strL "category", strL "sensors")] 3
        (set_cached_content (strL "features")
          (.jobj [(strL "a", .jarr [])]) [(strL "category", strL "sensors")] none 3
          CMState.init).2).1
      = some (.jobj [(strL "a", .jarr [])]) :=
  cached_content_roundtrip (strL "features") (.jobj [(strL "a", .jarr [])])
    [(strL "category", strL "sensors")] CMState.init 3 rfl

/-!
## Claim C8: pattern clear on the Local Fallback Store
-/

theorem keysOf_cons {α : Type} (k0 : Str) (v0 : α) (t : List (Str × α)) :
    keysOf ((k0, v0) :: t) = k0 :: keysOf t := rfl

theorem lookupKV_eq_none_of_not_mem {α : Type} (l : List (Str × α)) (k : Str)
    (h : k ∉ keysOf l) : lookupKV l k = none := by
  induction l with
  | nil => rfl
  | cons hd t ih =>
    obtain ⟨k0, v0⟩ := hd
    rw [keysOf_cons] at h
    simp only [List.mem_cons, not_or] at h
    have hk : k0 ≠ k := fun hh => h.1 hh.symm
    simp [lookupKV, hk, ih h.2]

theorem lookup_cache_foldl_memDelete (K : List Str) (m : Mem) (k : Str) :
    lookupKV (K.foldl (fun acc kk => memDelete kk acc) m).cache k
      = if k ∈ K then none else lookupKV m.cache k := by
  induction K generalizing m with
  | nil => simp
  | cons kk K' ih =>
    rw [List.foldl_cons, ih (memDelete kk m)]
    by_cases hmem : k ∈ K'
    · simp [hmem]
    · by_cases hk : k = kk
      · subst hk
        simp [memDelete, lookupKV_eraseKV_self, hmem]
      · have hne : kk ≠ k := fun hh => hk hh.symm
        simp [memDelete, hmem, hk, lookupKV_eraseKV_ne _ kk k hne]

theorem filter_ne_star (text : Str) (h : '*' ∉ text) :
    (text ++ ['*']).filter (fun c => c != '*') = text := by
  induction text with
  | nil => rfl
  | cons c t ih =>
    have hc : c ≠ '*' := fun hh => h (by simp [hh])
    have ht : '*' ∉ t := fun hm => h (by simp [hm])
    simp [List.filter_cons, hc, ih ht]

/-- C8: `clear_pattern` on the Local Fallback Store.  For a prefix-wildcard
pattern `text*` (no other `*` in `text`) it removes exactly the stored keys
that start with the literal prefix `text` — afterwards a key looks up to
absent iff it starts with `text`, and is untouched otherwise — and it returns
the number of stored keys with that prefix.  For a pattern with no `*` it
removes exactly a key equal to the pattern and returns the number of stored
keys equal to it. -/
theorem memClearPattern_spec (text : Str) (m : Mem) (hstar : '*' ∉ text) :
    ((memClearPattern (text ++ ['*']) m).1
        = ((keysOf m.cache).filter (fun k => startsWithL text k)).length
      ∧ ∀ k, lookupKV (memClearPattern (text ++ ['*']) m).2.cache k
          = if startsWithL text k then none else lookupKV m.cache k)
    ∧ ((memClearPattern text m).1
        = ((keysOf m.cache).filter (fun k => k == text)).length
      ∧ ∀ k, lookupKV (memClearPattern text m).2.cache k
          = if k = text then none else lookupKV m.cache k) := by
  have hmemstar : '*' ∈ text ++ ['*'] := by simp
  constructor
  · constructor
    · simp [memClearPattern, hmemstar, filter_ne_star text hstar]
    · intro k
      unfold memClearPattern
      simp only [hmemstar, if_true, filter_ne_star text hstar,
                 lookup_cache_foldl_memDelete]
      by_cases hsw : startsWithL text k = true
      · by_cases hmk : k ∈ keysOf m.cache
        · have hin : k ∈ (keysOf m.cache).filter (fun k => startsWithL text k) := by
            simp [List.mem_filter, hmk, hsw]
          simp [hin, hsw]
        · have hout : k ∉ (keysOf m.cache).filter (fun k => startsWithL text k) :=
            fun hm => hmk (List.mem_of_mem_filter hm)
          simp [hout, hsw, lookupKV_eq_none_of_not_mem _ _ hmk]
      · have hout : k ∉ (keysOf m.cache).filter (fun k => startsWithL text k) := by
          intro hm
          exact hsw (List.mem_filter.mp hm).2
        simp [hout, hsw]
  · constructor
    · simp [memClearPattern, hstar]
    · intro k
      unfold memClearPattern
      simp only [hstar, if_false, lookup_cache_foldl_memDelete]
      by_cases hk : k = text
      · subst hk
        by_cases hmk : k ∈ keysOf m.cache
        · have hin : k ∈ (keysOf m.cache).filter (fun kk => kk == k) := by
            simp [List.mem_filter, hmk]
          simp [hin]
        · have hout : k ∉ (keysOf m.cache).filter (fun kk => kk == k) :=
            fun hm => hmk (List.mem_of_mem_filter hm)
          simp [hout, lookupKV_eq_none_of_not_mem _ _ hmk]
      · have hout : k ∉ (keysOf m.cache).filter (fun kk => kk == text) := by
          intro hm
          have := (List.mem_filter.mp hm).2
          exact hk (by simpa using this)
        simp [hout, hk]

/-- Witness for C8 at the spec's own example: clearing
`content:features:*` on a store holding `content:features:category:sensors`
and `content:testimonials:x` removes only the first and returns count 1. -/
theorem memClearPattern_spec_witness :
    (memClearPattern (strL "content:features:" ++ ['*'])
        ⟨[(strL "content:features:category:sensors", strL "a"),
          (strL "content:testimonials:x", strL "b")], [], ⟨0, 0, 0, 0⟩⟩).1 = 1
    ∧ lookupKV (memClearPattern (strL "content:features:" ++ ['*'])
        ⟨[(strL "content:features:category:sensors", strL "a"),
          (strL "content:testimonials:x", strL "b")], [], ⟨0, 0, 0, 0⟩⟩).2.cache
        (strL "content:testimonials:x") = some (strL "b")
    ∧ lookupKV (memClearPattern (strL "content:features:" ++ ['*'])
        ⟨[(strL "content:features:category:sensors", strL "a"),
          (strL "content:testimonials:x", strL "b")], [], ⟨0, 0, 0, 0⟩⟩).2.cache
        (strL "content:features:category:sensors") = none := by
  have h := memClearPattern_spec (strL "content:features:")
    ⟨[(strL "content:features:category:sensors", strL "a"),
      (strL "content:testimonials:x", strL "b")], [], ⟨0, 0, 0, 0⟩⟩ (by decide)
  refine ⟨?_, ?_, ?_⟩
  · rw [h.1.1]; decide
  · rw [h.1.2 (strL "content:testimonials:x")]; decide
  · rw [h.1.2 (strL "content:features:category:sensors")]; decide

/-!
## Claim C10: no orphan expiration records in reachable states
-/

theorem noOrphan_memDelete (key : Str) (m : Mem)
    (h : ∀ k e, lookupKV m.expiry k = some e → ∃ v, lookupKV m.cache k = some v) :
    ∀ k e, lookupKV (memDelete key m).expiry k = some e →
      ∃ v, lookupKV (memDelete key m).cache k = some v := by
  intro k e hk
  by_cases hkk : key = k
  · subst hkk
    simp [memDelete, lookupKV_eraseKV_self] at hk
  · simp only [memDelete] at hk ⊢
    rw [lookupKV_eraseKV_ne _ _ _ hkk] at hk
    obtain ⟨v, hv⟩ := h k e hk
    exact ⟨v, by rw [lookupKV_eraseKV_ne _ _ _ hkk]; exact hv⟩

theorem noOrphan_memSet (now : Nat) (key value : Str) (ttl : Nat) (m : Mem)
    (h : ∀ k e, lookupKV m.expiry k = some e → ∃ v, lookupKV m.cache k = some v) :
    ∀ k e, lookupKV (memSet now key value ttl m).expiry k = some e →
      ∃ v, lookupKV (memSet now key value ttl m).cache k = some v := by
  intro k e hk
  by_cases hkk : key = k
  · subst hkk
    exact ⟨value, by simp [memSet, lookupKV_insertKV_self]⟩
  · simp only [memSet] at hk ⊢
    have hexp : lookupKV m.expiry k = some e := by
      split_ifs at hk with ht
      · rwa [lookupKV_insertKV_ne _ _ _ _ hkk] at hk
      · exact hk
    obtain ⟨v, hv⟩ := h k e hexp
    exact ⟨v, by rw [lookupKV_insertKV_ne _ _ _ _ hkk]; exact hv⟩

theorem noOrphan_memGet (now : Nat) (key : Str) (m : Mem)
    (h : ∀ k e, lookupKV m.expiry k = some e → ∃ v, lookupKV m.cache k = some v) :
    ∀ k e, lookupKV (memGet now key m).2.expiry k = some e →
      ∃ v, lookupKV (memGet now key m).2.cache k = some v := by
  cases hlc : lookupKV m.cache key with
  | none =>
    simp only [memGet, hlc]
    exact fun k e hk => h k e hk
  | some v0 =>
    cases hle : lookupKV m.expiry key with
    | none =>
      simp only [memGet, hlc, hle]
      exact fun k e hk => h k e hk
    | some e0 =>
      by_cases hlt : now < e0
      · simp only [memGet, hlc, hle, if_pos hlt]
        exact fun k e hk => h k e hk
      · simp only [memGet, hlc, hle, if_neg hlt]
        exact fun k e hk => noOrphan_memDelete key m h k e hk

theorem noOrphan_foldl_delete (K : List Str) (m : Mem)
    (h : ∀ k e, lookupKV m.expiry k = some e → ∃ v, lookupKV m.cache k = some v) :
    ∀ k e, lookupKV (K.foldl (fun acc kk => memDelete kk acc) m).expiry k = some e →
      ∃ v, lookupKV (K.foldl (fun acc kk => memDelete kk acc) m).cache k = some v := by
  induction K generalizing m with
  | nil => exact h
  | cons kk K' ih => exact ih (memDelete kk m) (noOrphan_memDelete kk m h)

theorem noOrphan_memClearPattern (pattern : Str) (m : Mem)
    (h : ∀ k e, lookupKV m.expiry k = some e → ∃ v, lookupKV m.cache k = some v) :
    ∀ k e, lookupKV (memClearPattern pattern m).2.expiry k = some e →
      ∃ v, lookupKV (memClearPattern pattern m).2.cache k = some v := by
  exact noOrphan_foldl_delete _ m h

/-- C10: in every Local Fallback Store state reachable from a fresh
`InMemoryCache()` by any sequence of `get`/`set`/`delete`/`clear_pattern`
operations, every key with an expiration record also holds a value — the
expiry dict never contains orphan records. -/
theorem mem_reachable_no_orphan_expiry (m : Mem) (h : ReachableMem m) :
    ∀ k e, lookupKV m.expiry k = some e → ∃ v, lookupKV m.cache k = some v := by
  induction h with
  | empty =>
    intro k e hk
    simp [Mem.empty, lookupKV] at hk
  | get now key _ ih => exact noOrphan_memGet now key _ ih
  | set now key value ttl _ ih => exact noOrphan_memSet now key value ttl _ ih
  | del key _ ih => exact noOrphan_memDelete key _ ih
  | clear pattern _ ih => exact noOrphan_memClearPattern pattern _ ih

/-- Witness for C10 at a concrete reachable state. -/
theorem mem_reachable_no_orphan_expiry_witness :
    ∃ v, lookupKV (memSet 0 (strL "k") (strL "v") 5 Mem.empty).cache (strL "k")
      = some v :=
  mem_reachable_no_orphan_expiry (memSet 0 (strL "k") (strL "v") 5 Mem.empty)
    (ReachableMem.set 0 (strL "k") (strL "v") 5 ReachableMem.empty) (strL "k") 5 rfl

/-!
## Claim C4: totality of the Cache Gateway
-/

/-- C4: for every backend behavior — including any call raising — and every
key, value, ttl and pattern, no public Cache Gateway method propagates an
exception to its caller (each result is `Except.ok`), and on a raising backend
call `get` returns absent, `set` returns `False`, `delete` returns `False`,
and `clear_pattern` returns `0`; a deserialization failure on `get` likewise
yields absent. -/
theorem cacheManager_total (σ : Type) (b : Backend σ) (st : CMB σ)
    (key pat : Str) (v : JVal) (ttl : Option Nat) :
    ((cmGetB b key st).1.isOk = true)
    ∧ ((cmSetB b key v ttl st).1.isOk = true)
    ∧ ((cmDeleteB b key st).1.isOk = true)
    ∧ ((cmClearPatternB b pat st).1.isOk = true)
    ∧ (∀ e s', b.bget key (activeClient b st) = (.error e, s') →
        (cmGetB b key st).1 = .ok none)
    ∧ (∀ s s', b.bget key (activeClient b st) = (.ok (some s), s') → loads s = none →
        (cmGetB b key st).1 = .ok none)
    ∧ (∀ e s', b.bset key (dumps v) (resolveTtl ttl) (activeClient b st)
          = (.error e, s') →
        (cmSetB b key v ttl st).1 = .ok false)
    ∧ (∀ e s', b.bdel key (activeClient b st) = (.error e, s') →
        (cmDeleteB b key st).1 = .ok false)
    ∧ (∀ e s', b.bclear pat (activeClient b st) = (.error e, s') →
        (cmClearPatternB b pat st).1 = .ok 0) := by
  refine ⟨?_, ?_, ?_, ?_, ?_, ?_, ?_, ?_, ?_⟩
  · by_cases hen : st.cache_enabled
    · rcases hbg : b.bget key (activeClient b st) with ⟨r, s'⟩
      cases r with
      | ok v? =>
        cases v? with
        | some s =>
          by_cases hnil : s = []
          · simp [cmGetB, hen, hbg, hnil, Except.isOk, Except.toBool]
          · cases hl : loads s <;> simp [cmGetB, hen, hbg, hnil, hl, Except.isOk, Except.toBool]
        | none => simp [cmGetB, hen, hbg, Except.isOk, Except.toBool]
      | error e => simp [cmGetB, hen, hbg, Except.isOk, Except.toBool]
    · simp [cmGetB, hen, Except.isOk, Except.toBool]
  · by_cases hen : st.cache_enabled
    · rcases hbs : b.bset key (dumps v) (resolveTtl ttl) (activeClient b st) with ⟨r, s'⟩
      cases r <;> simp [cmSetB, hen, hbs, Except.isOk, Except.toBool]
    · simp [cmSetB, hen, Except.isOk, Except.toBool]
  · by_cases hen : st.cache_enabled
    · rcases hbd : b.bdel key (activeClient b st) with ⟨r, s'⟩
      cases r <;> simp [cmDeleteB, hen, hbd, Except.isOk, Except.toBool]
    · simp [cmDeleteB, hen, Except.isOk, Except.toBool]
  · by_cases hen : st.cache_enabled
    · rcases hbc : b.bclear pat (activeClient b st) with ⟨r, s'⟩
      cases r <;> simp [cmClearPatternB, hen, hbc, Except.isOk, Except.toBool]
    · simp [cmClearPatternB, hen, Except.isOk, Except.toBool]
  · intro e s' hbg
    by_cases hen : st.cache_enabled
    · simp [cmGetB, hen, hbg]
    · simp [cmGetB, hen]
  · intro s s' hbg hload
    by_cases hen : st.cache_enabled
    · by_cases hnil : s = []
      · simp [cmGetB, hen, hbg, hnil]
      · simp [cmGetB, hen, hbg, hnil, hload]
    · simp [cmGetB, hen]
  · intro e s' hbs
    by_cases hen : st.cache_enabled
    · simp [cmSetB, hen, hbs]
    · simp [cmSetB, hen]
  · intro e s' hbd
    by_cases hen : st.cache_enabled
    · simp [cmDeleteB, hen, hbd]
    · simp [cmDeleteB, hen]
  · intro e s' hbc
    by_cases hen : st.cache_enabled
    · simp [cmClearPatternB, hen, hbc]
    · simp [cmClearPatternB, hen]

/-- Witness for C4 against a backend whose every call raises. -/
theorem cacheManager_total_witness :
    (cmGetB ⟨fun _ _ => (.error (), ()), fun _ _ _ _ => (.error (), ()),
        fun _ _ => (.error (), ()), fun _ _ => (.error (), ()), ()⟩
        (strL "k") ⟨true, none⟩).1 = .ok none
    ∧ (cmSetB ⟨fun _ _ => (.error (), ()), fun _ _ _ _ => (.error (), ()),
        fun _ _ => (.error (), ()), fun _ _ => (.error (), ()), ()⟩
        (strL "k") JVal.null none ⟨true, none⟩).1 = .ok false
    ∧ (cmClearPatternB ⟨fun _ _ => (.error (), ()), fun _ _ _ _ => (.error (), ()),
        fun _ _ => (.error (), ()), fun _ _ => (.error (), ()), ()⟩
        (strL "p") ⟨true, none⟩).1 = .ok 0 := by
  have h := cacheManager_total Unit
    ⟨fun _ _ => (.error (), ()), fun _ _ _ _ => (.error (), ()),
      fun _ _ => (.error (), ()), fun _ _ => (.error (), ()), ()⟩
    ⟨true, none⟩ (strL "k") (strL "p") JVal.null none
  exact ⟨h.2.2.2.2.1 () () rfl, h.2.2.2.2.2.2.1 () () rfl,
         h.2.2.2.2.2.2.2.2 () () rfl⟩

end Cachepy
